import Mathlib

/-!
Verification of the discordo synchronization engine: a shallow embedding of
the navigation-tree synchronizer, the members-list builder and the
member-search throttle, with theorems checking the natural-language
specification against the embedded code.

Sources embedded (Go): the guilds tree (`moveDMToTop`, `updateDMStyleAndMove`,
`updateChannelStyle`, the DM-folder branch of `onSelected`), the gateway event
handlers (`onReady`, `onReadUpdate`, `onMessageCreate`), the members list
(`rebuildList`, `sortMembers`, `groupMembersByRole`, `getRoleInfo`,
`formatMemberText`, `onSelected`) and `searchMember` from the message input.

Machine integers of the Go code (ids, positions, colors) are modelled as
`Nat`/`Int`; Go strings as Lean `String` with operations on the underlying
character list (Go compares strings byte-wise, and byte-wise order of UTF-8
agrees with code-point order, so character-list comparison is faithful).
Pointer identity of `tview` tree nodes is modelled by structural equality;
distinct sibling nodes are structurally distinct in every state the program
builds (each channel node appears at most once), which theorems record as
explicit no-duplicate hypotheses where the code compares pointers.
-/

/-- The fragment of `tcell.Style` the embedded code manipulates: the bold,
dim and underline attributes, all off in the zero style. -/
structure Style where
  bold : Bool
  dim : Bool
  underline : Bool
deriving DecidableEq, Repr

/-- The zero `tcell.Style`, carried by freshly created `tview` tree nodes. -/
def Style.zero : Style :=
  ⟨false, false, false⟩

/-- `ningen.UnreadIndication`. -/
inductive UnreadIndication where
  | channelRead
  | channelUnread
  | channelMentioned
deriving DecidableEq, Repr

/-- `guildsTree.unreadStyle`: read maps to dim; mentioned maps to underline
and (by fallthrough) bold; unread maps to bold. -/
def unreadStyle : UnreadIndication → Style
  | .channelRead => ⟨false, true, false⟩
  | .channelMentioned => ⟨true, false, true⟩
  | .channelUnread => ⟨true, false, false⟩

/-- The reference stored in a `tview` tree node: nil (root, folders, the
Direct Messages node), a `discord.GuildID`, or a `discord.ChannelID`.
Go compares references as interface values, so a guild id never equals a
channel id even when the numbers agree. -/
inductive NodeRef where
  | nilRef
  | guild (id : Nat)
  | channel (id : Nat)
deriving DecidableEq, Repr

/-- A `tview.TreeNode`: reference, display text, text style, expanded flag
and ordered children. -/
inductive TreeNode where
  | mk (ref : NodeRef) (text : String) (style : Style) (expanded : Bool)
      (children : List TreeNode)

def TreeNode.ref : TreeNode → NodeRef
  | .mk r _ _ _ _ => r

def TreeNode.text : TreeNode → String
  | .mk _ t _ _ _ => t

def TreeNode.style : TreeNode → Style
  | .mk _ _ s _ _ => s

def TreeNode.expanded : TreeNode → Bool
  | .mk _ _ _ e _ => e

def TreeNode.children : TreeNode → List TreeNode
  | .mk _ _ _ _ cs => cs

/-- `TreeNode.SetTextStyle`: replace the node's style. -/
def TreeNode.withStyle (st : Style) : TreeNode → TreeNode
  | .mk r t _ e cs => .mk r t st e cs

/-- Replace a node's children list. -/
def TreeNode.withChildren (cs : List TreeNode) : TreeNode → TreeNode
  | .mk r t s e _ => .mk r t s e cs

mutual

def TreeNode.beq : TreeNode → TreeNode → Bool
  | .mk r1 t1 s1 e1 c1, .mk r2 t2 s2 e2 c2 =>
    decide (r1 = r2) && decide (t1 = t2) && decide (s1 = s2) &&
      decide (e1 = e2) && TreeNode.beqList c1 c2

def TreeNode.beqList : List TreeNode → List TreeNode → Bool
  | [], [] => true
  | a :: as, b :: bs => TreeNode.beq a b && TreeNode.beqList as bs
  | _, _ => false

end

mutual

theorem TreeNode.beq_eq_true_iff : ∀ a b : TreeNode, TreeNode.beq a b = true ↔ a = b
  | .mk r1 t1 s1 e1 c1, .mk r2 t2 s2 e2 c2 => by
    simp [TreeNode.beq, TreeNode.beqList_eq_true_iff c1 c2, TreeNode.mk.injEq, and_assoc]

theorem TreeNode.beqList_eq_true_iff :
    ∀ as bs : List TreeNode, TreeNode.beqList as bs = true ↔ as = bs
  | [], [] => by simp [TreeNode.beqList]
  | [], _ :: _ => by simp [TreeNode.beqList]
  | _ :: _, [] => by simp [TreeNode.beqList]
  | a :: as, b :: bs => by
    simp [TreeNode.beqList, TreeNode.beq_eq_true_iff a b, TreeNode.beqList_eq_true_iff as bs]

end

instance : DecidableEq TreeNode := fun a b =>
  decidable_of_iff _ (TreeNode.beq_eq_true_iff a b)

mutual

/-- Preorder depth-first search for the first node carrying a reference, as
performed by `tview`'s `Walk` with an early stop (`Walk` visits a node before
its children, in child order). -/
def findRef (target : NodeRef) : TreeNode → Option TreeNode
  | .mk r t s e cs =>
    if r = target then some (.mk r t s e cs) else findRefList target cs

def findRefList (target : NodeRef) : List TreeNode → Option TreeNode
  | [] => none
  | c :: cs =>
    match findRef target c with
    | some n => some n
    | none => findRefList target cs

end

mutual

/-- Apply `f` to the first node (preorder) whose reference is `target`; the
returned flag records whether a node was hit, mirroring the early stop of a
`Walk`-based update. -/
def updateFirstRef (target : NodeRef) (f : TreeNode → TreeNode) :
    TreeNode → TreeNode × Bool
  | .mk r t s e cs =>
    if r = target then (f (.mk r t s e cs), true)
    else
      let p := updateFirstRefList target f cs
      (.mk r t s e p.1, p.2)

def updateFirstRefList (target : NodeRef) (f : TreeNode → TreeNode) :
    List TreeNode → List TreeNode × Bool
  | [] => ([], false)
  | c :: cs =>
    let p := updateFirstRef target f c
    if p.2 then (p.1 :: cs, true)
    else
      let q := updateFirstRefList target f cs
      (c :: q.1, q.2)

end

mutual

/-- Whether some node of the tree carries the reference. -/
def containsRef (target : NodeRef) : TreeNode → Bool
  | .mk r _ _ _ cs => decide (r = target) || containsRefList target cs

def containsRefList (target : NodeRef) : List TreeNode → Bool
  | [] => false
  | c :: cs => containsRef target c || containsRefList target cs

end

/-- Set the style of the first node (preorder) carrying the reference:
the shape of `Walk` + `SetTextStyle` used throughout the handlers. -/
def setStyleRef (target : NodeRef) (st : Style) (t : TreeNode) : TreeNode :=
  (updateFirstRef target (TreeNode.withStyle st) t).1

/-- Go's `strings.Compare` on the underlying characters: negative, zero or
positive according to lexicographic order (UTF-8 byte order coincides with
code-point order, so this is byte-faithful). -/
def listCompare : List Char → List Char → Int
  | [], [] => 0
  | [], _ :: _ => -1
  | _ :: _, [] => 1
  | a :: as, b :: bs =>
    if a < b then -1 else if b < a then 1 else listCompare as bs

/-- `strings.Compare`. -/
def stringsCompare (a b : String) : Int :=
  listCompare a.data b.data

theorem listCompare_nil_le (bs : List Char) : listCompare [] bs ≤ 0 := by
  cases bs <;> simp [listCompare]

theorem listCompare_eq_zero_iff : ∀ as bs : List Char, listCompare as bs = 0 ↔ as = bs
  | [], [] => by simp [listCompare]
  | [], _ :: _ => by simp [listCompare]
  | _ :: _, [] => by simp [listCompare]
  | a :: as, b :: bs => by
    by_cases hab : a < b
    · simp [listCompare, hab, ne_of_lt hab]
    · by_cases hba : b < a
      · have : a ≠ b := fun h => absurd (h ▸ hba) (lt_irrefl a)
        simp [listCompare, hab, hba, this]
      · have hab' : a = b := le_antisymm (not_lt.mp hba) (not_lt.mp hab)
        simp [listCompare, hab, hba, hab', listCompare_eq_zero_iff as bs]

theorem listCompare_neg : ∀ as bs : List Char, listCompare as bs = -listCompare bs as
  | [], [] => by simp [listCompare]
  | [], _ :: _ => by simp [listCompare]
  | _ :: _, [] => by simp [listCompare]
  | a :: as, b :: bs => by
    by_cases hab : a < b
    · have hba : ¬ b < a := fun h => absurd (lt_trans hab h) (lt_irrefl a)
      simp [listCompare, hab, hba]
    · by_cases hba : b < a
      · simp [listCompare, hab, hba]
      · simp [listCompare, hab, hba, listCompare_neg as bs]

theorem listCompare_trans :
    ∀ as bs cs : List Char, listCompare as bs ≤ 0 → listCompare bs cs ≤ 0 →
      listCompare as cs ≤ 0
  | [], bs, cs, _, _ => listCompare_nil_le cs
  | _ :: _, [], _, h1, _ => by simp [listCompare] at h1
  | _ :: _, _ :: _, [], _, h2 => by simp [listCompare] at h2
  | a :: as, b :: bs, c :: cs, h1, h2 => by
    by_cases hab : a < b
    · by_cases hbc : b < c
      · simp [listCompare, lt_trans hab hbc]
      · by_cases hcb : c < b
        · simp [listCompare, hbc, hcb] at h2
        · have hbc' : b = c := le_antisymm (not_lt.mp hcb) (not_lt.mp hbc)
          simp [listCompare, hbc' ▸ hab]
    · by_cases hba : b < a
      · simp [listCompare, hab, hba] at h1
      · have hab' : a = b := le_antisymm (not_lt.mp hba) (not_lt.mp hab)
        by_cases hbc : b < c
        · simp [listCompare, hab' ▸ hbc]
        · by_cases hcb : c < b
          · simp [listCompare, hbc, hcb] at h2
          · have hbc' : b = c := le_antisymm (not_lt.mp hcb) (not_lt.mp hbc)
            have hac : ¬ a < c := by rw [hab', hbc']; exact lt_irrefl c
            have hca : ¬ c < a := by rw [hab', hbc']; exact lt_irrefl c
            simp only [listCompare, hab', hbc', hab, hba, hbc, hcb] at h1 h2
            simp only [listCompare, hac, hca, if_false]
            exact listCompare_trans as bs cs
              (by simpa [hab', hbc'] using h1) (by simpa [hbc'] using h2)

theorem listCompare_total (as bs : List Char) :
    listCompare as bs ≤ 0 ∨ listCompare bs as ≤ 0 := by
  rcases le_or_lt (listCompare as bs) 0 with h | h
  · exact Or.inl h
  · right
    rw [listCompare_neg bs as]
    omega

/-- `strings.ToLower` restricted to ASCII case mapping (the Go function is
Unicode-aware; on the ASCII names the claims exercise the two agree). -/
def goToLower (s : String) : String :=
  ⟨s.data.map Char.toLower⟩

/-- `cmp.Compare` on naturals. -/
def cmpCompare (a b : Nat) : Int :=
  if a < b then -1 else if a = b then 0 else 1

/-- `discord.User`: the fields consulted by the embedded code. -/
structure User where
  id : Nat
  displayName : String
  username : String
deriving DecidableEq, Repr

/-- arikawa's `User.DisplayOrUsername`: the display name when set, else the
username. -/
def User.displayOrUsername (u : User) : String :=
  if u.displayName ≠ "" then u.displayName else u.username

/-- `discord.Member`: the fields consulted by the embedded code. -/
structure Member where
  user : User
  nick : String
  roleIDs : List Nat
deriving DecidableEq, Repr

/-- `discord.Presence`: `discord.Status` is a string type with values
"online", "idle", "dnd", "offline", "invisible". -/
structure Presence where
  userID : Nat
  status : String
deriving DecidableEq, Repr

/-- `discord.Role`: the fields consulted by the embedded code (`Position` is
a Go `int`, `Color` a numeric color). -/
structure Role where
  id : Nat
  name : String
  color : Nat
  position : Int
deriving DecidableEq, Repr

/-- `memberItem`: a member paired with its presence (if any) and its highest
colored role (if any). -/
structure MemberItem where
  member : Member
  presence : Option Presence
  roleInfo : Option Role
deriving DecidableEq, Repr

/-- The `statusOrder` map of `membersList.sortMembers`; a Go map lookup
yields the zero value 0 for a status absent from the map. -/
def statusOrder (s : String) : Nat :=
  if s = "online" then 0
  else if s = "idle" then 1
  else if s = "dnd" then 2
  else if s = "offline" then 3
  else if s = "invisible" then 3
  else 0

/-- The status consulted by `sortMembers` and `formatMemberText`: the
presence status, or offline when the item carries no presence. -/
def memberStatus (it : MemberItem) : String :=
  match it.presence with
  | some p => p.status
  | none => "offline"

/-- The name consulted by `sortMembers` and `formatMemberText`: the nickname
when set, else `DisplayOrUsername`. -/
def memberName (it : MemberItem) : String :=
  if it.member.nick ≠ "" then it.member.nick else it.member.user.displayOrUsername

/-- `membersList.sortMembers`: the comparator handed to `slices.SortFunc` —
status rank first, then case-insensitive name comparison. -/
def sortMembers (a b : MemberItem) : Int :=
  if statusOrder (memberStatus a) ≠ statusOrder (memberStatus b) then
    cmpCompare (statusOrder (memberStatus a)) (statusOrder (memberStatus b))
  else
    stringsCompare (goToLower (memberName a)) (goToLower (memberName b))

/-- The sorting step of `rebuildList`: `slices.SortFunc(memberItems,
ml.sortMembers)`. Go's sort guarantees a permutation ordered by the
comparator; insertion sort realizes the same guarantee. -/
def sortMembersList (items : List MemberItem) : List MemberItem :=
  List.insertionSort (fun a b => sortMembers a b ≤ 0) items

/-- `membersList.getPresence`: cache lookup, substituting an offline presence
on a miss. -/
def getPresence (presences : Nat → Option Presence) (userID : Nat) : Presence :=
  match presences userID with
  | some p => p
  | none => ⟨userID, "offline"⟩

/-- The loop body of `membersList.getRoleInfo`: an unresolvable role id is
skipped; a colored role whose position strictly exceeds the best position so
far becomes the new best. -/
def roleScanStep (roles : Nat → Option Role) (acc : Option Role × Int) (rid : Nat) :
    Option Role × Int :=
  match roles rid with
  | none => acc
  | some role =>
    if role.color ≠ 0 ∧ role.position > acc.2 then (some role, role.position)
    else acc

/-- `membersList.getRoleInfo`: scan the member's roles, keeping the colored
role of strictly greatest position seen so far; `highestPos` starts at 0 and
unresolvable role ids are skipped. -/
def getRoleInfo (roles : Nat → Option Role) (m : Member) : Option Role :=
  if m.roleIDs.isEmpty then none
  else (m.roleIDs.foldl (roleScanStep roles) ((none : Option Role), (0 : Int))).1

/-- The bucket key used by `groupMembersByRole`: the highest colored role's
name, or the "No Role" sentinel. -/
def roleNameOf : Option Role → String
  | some r => r.name
  | none => "No Role"

/-- `membersList.groupMembersByRole` read at one key: the Go map groups by
appending in slice order, so bucket `roleName` holds exactly the items with
that key, in input order. -/
def groupMembersByRole (items : List MemberItem) (roleName : String) : List MemberItem :=
  items.filter (fun it => roleNameOf it.roleInfo = roleName)

/-- `membersList.getStatusIndicator`. -/
def getStatusIndicator (status : String) : String :=
  if status = "online" then "[green::b]•[-:-:-]"
  else if status = "idle" then "[yellow::b]•[-:-:-]"
  else if status = "dnd" then "[red::b]•[-:-:-]"
  else "[::d]•[::D]"

def hexDigitChar (n : Nat) : Char :=
  if n % 16 < 10 then Char.ofNat (48 + n % 16) else Char.ofNat (87 + n % 16)

/-- The hex rendering of `tcell.NewHexColor(c).String()` ("#rrggbb"); the
only property theorems use is that it contains neither '─' nor markup
brackets beyond the surrounding ones. -/
def colorHexString (c : Nat) : String :=
  ⟨['#', hexDigitChar (c / 1048576), hexDigitChar (c / 65536), hexDigitChar (c / 4096),
    hexDigitChar (c / 256), hexDigitChar (c / 16), hexDigitChar c]⟩

/-- `membersList.formatMemberText`: status indicator, space, the (possibly
color-tagged) name, the whole row dimmed for offline or invisible members. -/
def formatMemberText (item : MemberItem) : String :=
  let status := memberStatus item
  let name := memberName item
  let tagged :=
    match item.roleInfo with
    | some r =>
      if r.color ≠ 0 then "[" ++ colorHexString r.color ++ "]" ++ name ++ "[-]" else name
    | none => name
  let text := getStatusIndicator status ++ " " ++ tagged
  if status = "offline" ∨ status = "invisible" then "[::d]" ++ text ++ "[::D]" else text

/-- `slices.Sort` on strings: ascending byte-lexicographic order. -/
def sortStrings (l : List String) : List String :=
  List.insertionSort (fun a b => stringsCompare a b ≤ 0) l

/-- The presentation state of the members list: the rendered rows and the
`memberItems` index map (user id to row index). -/
structure MembersListState where
  rows : List String
  memberItems : List (Nat × Nat)
deriving DecidableEq, Repr

/-- The role-section loop of `rebuildList`: for each role name a header row
"─ name ─" followed by the bucket's member rows, recording each member's row
index in `memberItems`. -/
def addRoleSections (grouped : String → List MemberItem) (roleNames : List String) :
    List String × List (Nat × Nat) :=
  roleNames.foldl (fun acc rn =>
    let ms := grouped rn
    let base := acc.1.length + 1
    (acc.1 ++ ("─ " ++ rn ++ " ─") :: ms.map formatMemberText,
     acc.2 ++ ms.enum.map (fun p => (p.2.member.user.id, base + p.1))))
    ([], [])

/-- `membersList.rebuildList`: clear on an invalid guild id; no work while
hidden; a single error row when the member fetch fails; otherwise build
items, sort, group by role name, and emit the role sections over the sorted
role names. -/
def rebuildList (guildValid visible : Bool) (fetch : Except Unit (List Member))
    (presences : Nat → Option Presence) (roles : Nat → Option Role)
    (st : MembersListState) : MembersListState :=
  if guildValid = false then { st with rows := [] }
  else if visible = false then st
  else
    match fetch with
    | .error _ => { st with rows := ["Failed to load members"] }
    | .ok members =>
      let items := members.map (fun m =>
        ⟨m, some (getPresence presences m.user.id), getRoleInfo roles m⟩)
      let sorted := sortMembersList items
      let roleNames := sortStrings ((sorted.map (fun it => roleNameOf it.roleInfo)).dedup)
      let p := addRoleSections (groupMembersByRole sorted) roleNames
      ⟨p.1, p.2⟩

/-- `membersList.onSelected`: bounds check, then skip rows whose rendered
text contains the header glyph '─', then find the user whose recorded row
index matches and initiate a DM with them (returned as `some userID`;
`none` means no DM is initiated). -/
def membersOnSelected (st : MembersListState) (index : Int) : Option Nat :=
  if index < 0 ∨ (st.rows.length : Int) ≤ index then none
  else
    match st.rows.get? index.toNat with
    | none => none
    | some mainText =>
      if mainText.data.contains '─' then none
      else
        match st.memberItems.find? (fun q => q.2 = index.toNat) with
        | some q => if 0 < q.1 then some q.1 else none
        | none => none

/-- `discord.ChannelType`: the constants the embedded code distinguishes. -/
inductive ChannelType where
  | directMessage
  | groupDM
  | guildText
  | guildCategory
  | guildForum
  | guildPublicThread
  | guildPrivateThread
  | guildAnnouncementThread
deriving DecidableEq, Repr

/-- `discord.Channel`: the fields consulted by the embedded code.
`lastMessageID = none` models an invalid (zero) `LastMessageID`, and
`guildID = none` an invalid `GuildID`. -/
structure Channel where
  id : Nat
  channelType : ChannelType
  name : String
  lastMessageID : Option Nat
  guildID : Option Nat
deriving DecidableEq, Repr

/-- Modelled from the spec: `internal/ui.ChannelToString` is not under
`src/`; the spec only requires each node to carry a display text for its
channel, so the channel's name stands in. No theorem depends on the text of
a channel node. -/
def channelToString (c : Channel) : String :=
  c.name

/-- The recency surrogate `msgID` of the DM-folder branch of
`guildsTree.onSelected`: the last message id when valid, else the channel's
own id. -/
def msgID (ch : Channel) : Nat :=
  match ch.lastMessageID with
  | some m => m
  | none => ch.id

/-- `slices.SortFunc(channels, func(a, b) int { return cmp.Compare(msgID(b),
msgID(a)) })`: descending order of the recency surrogate. The comparator
`cmp.Compare(msgID(b), msgID(a))` is nonpositive exactly when
`msgID(b) ≤ msgID(a)`. -/
def sortPrivateChannels (channels : List Channel) : List Channel :=
  List.insertionSort (fun a b => msgID b ≤ msgID a) channels

/-- A freshly created DM channel node of phase 1: reference, display text,
zero style, default expanded flag, no children. -/
def mkDMChannelNode (c : Channel) : TreeNode :=
  .mk (.channel c.id) (channelToString c) Style.zero true []

/-- Phase 1 of the DM-folder branch of `guildsTree.onSelected`: sort the
private channels, materialize one child per channel with the default style,
and expand the node. -/
def onSelectedDMPhase1 (node : TreeNode) (channels : List Channel) : TreeNode :=
  let sorted := sortPrivateChannels channels
  .mk node.ref node.text node.style true (node.children ++ sorted.map mkDMChannelNode)

/-- Phases 1 and 2 of the DM-folder branch together: the second batch
computes `getChannelNodeStyle` for every sorted channel and applies the
styles to the phase-1 nodes in order (`nodeRefs[i].SetTextStyle(styles[i])`). -/
def onSelectedDMPhase2 (cStyle : Nat → Style) (node : TreeNode)
    (channels : List Channel) : TreeNode :=
  let sorted := sortPrivateChannels channels
  .mk node.ref node.text node.style true
    (node.children ++ sorted.map (fun c => (mkDMChannelNode c).withStyle (cStyle c.id)))

/-- The child-juggling core of `guildsTree.moveDMToTop`: locate the node
among the children (pointer search, modelled by structural equality); return
unchanged when absent (logged error) or already first; otherwise remove all
children and re-add the target first, then the rest in original order
(pointer inequality filter). -/
def moveDMToTopChildren (children : List TreeNode) (dmNode : TreeNode) :
    List TreeNode :=
  match children.findIdx? (fun c => c = dmNode) with
  | none => children
  | some 0 => children
  | some _ => dmNode :: children.filter (fun c => c ≠ dmNode)

/-- The in-place mutation of the found Direct Messages parent, seen from the
root's children: the first child carrying that text gets the promoted
children list. -/
def promoteInDMParent (dmNode : TreeNode) : List TreeNode → List TreeNode
  | [] => []
  | c :: cs =>
    if c.text = "Direct Messages" then
      c.withChildren (moveDMToTopChildren c.children dmNode) :: cs
    else c :: promoteInDMParent dmNode cs

/-- `guildsTree.moveDMToTop`: find the "Direct Messages" node among the
root's direct children (the `Walk` requires `parent == root`), then promote
`dmNode` among its children; a missing Direct Messages node aborts. -/
def moveDMToTop (root : TreeNode) (dmNode : TreeNode) : TreeNode :=
  match root.children.find? (fun c => c.text = "Direct Messages") with
  | none => root
  | some _ => root.withChildren (promoteInDMParent dmNode root.children)

/-- `guildsTree.updateDMStyleAndMove`: find the DM node by reference anywhere
in the tree; abort when absent; otherwise set its style — forced unread when
`forceUnread`, else the recomputed `getChannelNodeStyle` — and promote it in
the Direct Messages group. The style oracle `cStyle` stands for ningen's
read-state indication at the time of the update. -/
def updateDMStyleAndMove (cStyle : Nat → Style) (root : TreeNode)
    (channelID : Nat) (forceUnread : Bool) : TreeNode :=
  match findRef (.channel channelID) root with
  | none => root
  | some dmNode =>
    let newStyle := if forceUnread then unreadStyle .channelUnread else cStyle channelID
    let root' := setStyleRef (.channel channelID) newStyle root
    moveDMToTop root' (dmNode.withStyle newStyle)

/-- `guildsTree.moveDMToTopOnMessage`: find the DM node by reference and
promote it without touching its style. -/
def moveDMToTopOnMessage (root : TreeNode) (channelID : Nat) : TreeNode :=
  match findRef (.channel channelID) root with
  | none => root
  | some dmNode => moveDMToTop root dmNode

/-- `guildsTree.updateChannelStyle`: for a guild channel, find the guild
node and restyle the first matching channel node inside it; for a DM
channel (invalid guild id), restyle the first matching node in the whole
tree. -/
def updateChannelStyle (cStyle : Nat → Style) (root : TreeNode)
    (channelID : Nat) (guildID : Option Nat) : TreeNode :=
  match guildID with
  | some g =>
    (updateFirstRef (.guild g)
      (fun gn => setStyleRef (.channel channelID) (cStyle channelID) gn) root).1
  | none => setStyleRef (.channel channelID) (cStyle channelID) root

/-- `onReadUpdate` (tree effect): one walk restyles the guild node carrying
the event's guild id — or, for an event without a guild id, the private
channel node carrying the channel id; when a guild node was found and is
expanded, a second walk inside it restyles the channel node. The oracles
`gStyle`/`cStyle` stand for `getGuildNodeStyle`/`getChannelNodeStyle` at the
time of the event. -/
def onReadUpdate (gStyle : Nat → Style) (cStyle : Nat → Style) (root : TreeNode)
    (guildID : Option Nat) (channelID : Nat) : TreeNode :=
  match guildID with
  | some g =>
    (updateFirstRef (.guild g)
      (fun gn =>
        let gn' := gn.withStyle (gStyle g)
        if gn'.expanded then setStyleRef (.channel channelID) (cStyle channelID) gn'
        else gn') root).1
  | none => setStyleRef (.channel channelID) (cStyle channelID) root

/-- `onMessageCreate` (tree effect): a message in a cached DM or group-DM
channel forces the unread style and promotes the node when the channel is
not the selected one, and only promotes when it is; a message in any other
channel recomputes that channel node's style from read state. -/
def onMessageCreate (cabinet : Nat → Option Channel) (cStyle : Nat → Style)
    (selected : Option Nat) (root : TreeNode) (msgChannelID : Nat)
    (msgGuildID : Option Nat) : TreeNode :=
  let isCurrentChannel := selected = some msgChannelID
  let isDM : Bool :=
    match cabinet msgChannelID with
    | some ch => decide (ch.channelType = .directMessage) || decide (ch.channelType = .groupDM)
    | none => false
  if isDM then
    if ¬ isCurrentChannel then updateDMStyleAndMove cStyle root msgChannelID true
    else moveDMToTopOnMessage root msgChannelID
  else updateChannelStyle cStyle root msgChannelID msgGuildID

/-- `gateway.GuildFolder`: the fields consulted by `onReady`. -/
structure GuildFolder where
  id : Nat
  name : String
  color : String
  guildIDs : List Nat
deriving DecidableEq, Repr

/-- `discord.Guild`: the fields consulted by `onReady`. -/
structure Guild where
  id : Nat
  name : String
deriving DecidableEq, Repr

/-- `guildsTree.createGuildNode`: append a guild node styled by
`getGuildNodeStyle` to the parent's children. -/
def createGuildNode (gStyle : Nat → Style) (parent : TreeNode) (g : Guild) : TreeNode :=
  parent.withChildren (parent.children ++ [.mk (.guild g.id) g.name (gStyle g.id) true []])

/-- `guildsTree.createFolderNode`: a folder node named "[color]name[-]" (or
"Folder" when unnamed), expanded per configuration, holding one guild node
per resolvable guild id, appended to the root. In Go the folder node is
added to the root first and its children are attached through the live
pointer; the resulting tree is the same. -/
def createFolderNode (guilds : Nat → Option Guild) (gStyle : Nat → Style)
    (autoExpandFolders : Bool) (root : TreeNode) (folder : GuildFolder) : TreeNode :=
  let nm := if folder.name ≠ "" then "[" ++ folder.color ++ "]" ++ folder.name ++ "[-]"
    else "Folder"
  let base : TreeNode := .mk .nilRef nm Style.zero autoExpandFolders []
  let folderNode := folder.guildIDs.foldl (fun fn gid =>
    match guilds gid with
    | none => fn
    | some g => createGuildNode gStyle fn g) base
  root.withChildren (root.children ++ [folderNode])

/-- The guilds-tree state owned by `onReady`: the `guildsTreeInitialized`
guard and the tree root. -/
structure ReadyState where
  guildsTreeInitialized : Bool
  root : TreeNode
deriving DecidableEq

/-- `onReady`: on the first Ready event, clear the root, add the
"Direct Messages" node, then one node per folder entry — a single-guild
folder with id 0 becomes a bare guild node (skipped when the guild is not
cached), anything else a folder node; later Ready events (reconnections)
leave the state untouched. -/
def onReady (guilds : Nat → Option Guild) (gStyle : Nat → Style)
    (autoExpandFolders : Bool) (st : ReadyState) (folders : List GuildFolder) :
    ReadyState :=
  if st.guildsTreeInitialized then st
  else
    let root0 := st.root.withChildren [.mk .nilRef "Direct Messages" Style.zero true []]
    let root := folders.foldl (fun r folder =>
      if folder.id = 0 ∧ folder.guildIDs.length = 1 then
        match folder.guildIDs.head? with
        | some gid =>
          match guilds gid with
          | none => r
          | some g => createGuildNode gStyle r g
        | none => r
      else createFolderNode guilds gStyle autoExpandFolders r folder) root0
    ⟨true, root⟩

/-- The UTF-8 encoding of one character, as naturals — the byte layout of
Go strings: one byte below U+0080, two below U+0800, three below U+10000,
four otherwise. `/`, `%` and `+` spell out the shift, mask and or of the
encoder. -/
def utf8EncodeCharNat (c : Char) : List Nat :=
  let v := c.toNat
  if v < 128 then [v]
  else if v < 2048 then [192 + v / 64, 128 + v % 64]
  else if v < 65536 then [224 + v / 4096, 128 + (v / 64) % 64, 128 + v % 64]
  else [240 + v / 262144, 128 + (v / 4096) % 64, 128 + (v / 64) % 64, 128 + v % 64]

/-- The UTF-8 bytes of a string. Go strings are byte strings: the cache keys
of `searchMember` and the slice `key[:len(key)-1]` live at the byte level,
so the embedding keeps them there. -/
def utf8Bytes (s : String) : List Nat :=
  s.data.foldr (fun c acc => utf8EncodeCharNat c ++ acc) []

/-- Modelled from the spec: `internal/cache.Cache` is not under `src/`; the
spec describes it as a negative-result cache keyed by strings, so it is a
finite map with `Exists`, `Get` (zero default) and `Create`. Keys are byte
strings, as Go string map keys are — `key[:len(key)-1]` can be a key that
is not valid UTF-8. -/
structure Cache where
  entries : List (List Nat × Nat)
deriving DecidableEq, Repr

def Cache.existsKey (c : Cache) (k : List Nat) : Bool :=
  (c.entries.find? (fun q => q.1 = k)).isSome

def Cache.get (c : Cache) (k : List Nat) : Nat :=
  match c.entries.find? (fun q => q.1 = k) with
  | some q => q.2
  | none => 0

def Cache.create (c : Cache) (k : List Nat) (v : Nat) : Cache :=
  ⟨(k, v) :: c.entries⟩

/-- The mutable search state of `messageInput.searchMember`: the
negative-result cache and the time of the last gateway search. -/
structure SearchState where
  cache : Cache
  lastSearch : Nat
deriving DecidableEq, Repr

/-- `messageInput.searchMember`. The returned flag records whether
`MemberState.SearchMember` (the gateway fetch) is invoked; `chunkCount`
stands for the member count the chunk event later delivers. The Go slice
`key[:len(key)-1]` drops the key's last BYTE — not necessarily a whole
character — so the keys are modelled as byte lists and the slice as
`dropLast` on the bytes. -/
def searchMember (searchLimit : Nat) (searchFrequency : Nat) (now : Nat)
    (chunkCount : Nat) (st : SearchState) (gID : String) (name : String) :
    SearchState × Bool :=
  let key := utf8Bytes (gID ++ " " ++ name)
  if st.cache.existsKey key then (st, false)
  else
    let k : List Nat := key.dropLast
    if st.cache.existsKey k ∧ st.cache.get k < searchLimit then
      (⟨st.cache.create key (st.cache.get k), st.lastSearch⟩, false)
    else if now < st.lastSearch + searchFrequency then (st, false)
    else (⟨st.cache.create key chunkCount, now⟩, true)


theorem findIdx?_start {α : Type} (p : α → Bool) :
    ∀ (l : List α) (i : Nat), List.findIdx? p l i = (List.findIdx? p l).map (fun j => j + i)
  | [], _ => rfl
  | x :: xs, i => by
    by_cases hx : p x
    · simp [List.findIdx?_cons, hx]
    · rw [List.findIdx?_cons, if_neg (by simpa using hx),
        List.findIdx?_cons, if_neg (by simpa using hx),
        findIdx?_start p xs (i + 1), findIdx?_start p xs 1, Option.map_map]
      congr 1
      funext j
      simp [Function.comp]
      omega

theorem filter_ne_of_count_eq_one {α : Type} [DecidableEq α] :
    ∀ (l : List α) (a : α), l.count a = 1 →
      l.filter (fun x => x ≠ a) = l.erase a
  | [], a, h => by simp at h
  | x :: xs, a, h => by
    by_cases hx : x = a
    · subst hx
      have hc : xs.count x = 0 := by
        rw [List.count_cons_self] at h
        omega
      have hnot : x ∉ xs := List.count_eq_zero.mp hc
      have hkeep : xs.filter (fun y => y ≠ x) = xs :=
        List.filter_eq_self.mpr (fun y hy => by
          simp only [ne_eq, decide_eq_true_eq]
          exact fun he => hnot (he ▸ hy))
      simp [List.filter, hkeep, List.erase_cons_head]
      exact fun y hy he => hnot (he ▸ hy)
    · have hc : xs.count a = 1 := by
        have h' := h
        simp only [List.count_cons, beq_iff_eq, hx, if_false] at h'
        omega
      have hrec := filter_ne_of_count_eq_one xs a hc
      have hxa : (decide (x ≠ a)) = true := by simp [hx]
      rw [List.erase_cons_tail (by simp [hx])]
      simp [List.filter, hxa]
      simpa using hrec

theorem moveDMToTopChildren_eq_cons_erase (children : List TreeNode) (c : TreeNode)
    (hmem : c ∈ children) (hcount : children.count c = 1) :
    moveDMToTopChildren children c = c :: children.erase c := by
  cases children with
  | nil => simp at hmem
  | cons a as =>
    by_cases ha : a = c
    · subst ha
      simp [moveDMToTopChildren, List.findIdx?_cons, List.erase_cons_head]
    · have hmem' : c ∈ as := by
        cases hmem with
        | head => exact absurd rfl ha
        | tail _ h => exact h
      have hc : as.count c = 1 := by
        have h' := hcount
        simp only [List.count_cons, beq_iff_eq, ha, if_false] at h'
        omega
      have hsome : ∃ j, List.findIdx? (fun x => x = c) as = some j := by
        rcases hj : List.findIdx? (fun x => x = c) as with _ | j
        · have hfalse := List.findIdx?_eq_none_iff.mp hj c hmem'
          simp at hfalse
        · exact ⟨j, rfl⟩
      rcases hsome with ⟨j, hj⟩
      have hfind : List.findIdx? (fun x => x = c) (a :: as) = some (j + 1) := by
        rw [List.findIdx?_cons, if_neg (by simpa using ha), findIdx?_start, hj]
        rfl
      have hfilter : (a :: as).filter (fun x => x ≠ c) = a :: as.filter (fun x => x ≠ c) := by
        simp [List.filter, ha]
      rw [moveDMToTopChildren, hfind]
      simp only
      rw [hfilter, filter_ne_of_count_eq_one as c hc, List.erase_cons_tail (by simp [ha])]

/-- Claim C2: the promotion operation on the DM-group children is a stable
move-to-front — for a child `c` present (once, as pointers are) in the
children, the result is exactly `c` followed by the remaining children in
their original relative order, hence a permutation preserving the set of
children, and promoting an already-first child leaves the children
unchanged. -/
theorem moveDMToTop_stable_move_to_front (children : List TreeNode) (c : TreeNode)
    (hmem : c ∈ children) (hcount : children.count c = 1) :
    moveDMToTopChildren children c = c :: children.erase c ∧
    (moveDMToTopChildren children c).Perm children ∧
    (children.head? = some c → moveDMToTopChildren children c = children) := by
  have h := moveDMToTopChildren_eq_cons_erase children c hmem hcount
  refine ⟨h, ?_, ?_⟩
  · rw [h]
    exact (List.perm_cons_erase hmem).symm
  · intro hh
    cases children with
    | nil => simp at hh
    | cons a as =>
      have ha : a = c := by simpa using hh
      subst ha
      rw [h, List.erase_cons_head]

def exampleNodeA : TreeNode := .mk (.channel 1) "A" Style.zero true []

def exampleNodeB : TreeNode := .mk (.channel 2) "B" Style.zero true []

def exampleNodeC : TreeNode := .mk (.channel 3) "C" Style.zero true []

def exampleNodeD : TreeNode := .mk (.channel 4) "D" Style.zero true []

/-- Witness for C2 at the spec's own example: [A,B,C,D] with promote(C)
yields [C,A,B,D]. -/
theorem moveDMToTop_stable_move_to_front_witness :
    exampleNodeC ∈ [exampleNodeA, exampleNodeB, exampleNodeC, exampleNodeD] ∧
    [exampleNodeA, exampleNodeB, exampleNodeC, exampleNodeD].count exampleNodeC = 1 ∧
    moveDMToTopChildren [exampleNodeA, exampleNodeB, exampleNodeC, exampleNodeD] exampleNodeC =
      [exampleNodeC, exampleNodeA, exampleNodeB, exampleNodeD] := by
  refine ⟨by decide, by decide, ?_⟩
  have h := (moveDMToTop_stable_move_to_front
    [exampleNodeA, exampleNodeB, exampleNodeC, exampleNodeD] exampleNodeC
    (by decide) (by decide)).1
  rw [h]
  decide

/-- Claim C7 as stated fails on the code: rebuilding for a valid, visible
guild whose cached member snapshot is empty clears the list to zero rows —
there is no explanatory row. -/
theorem rebuildList_empty_zero_rows_counterexample :
    (rebuildList true true (.ok []) (fun _ => none) (fun _ => none)
      ⟨["stale"], [(1, 1)]⟩).rows = [] ∧
    (rebuildList true true (.ok []) (fun _ => none) (fun _ => none)
      ⟨["stale"], [(1, 1)]⟩).rows.length ≠ 1 := by
  decide

/-- Claim C7 amended: the degenerate cases of `rebuildList` — a failed
whole-set fetch yields exactly the single error row (no partial per-member
failure rows), while an empty cached snapshot yields an empty list (zero
rows, not one explanatory row). -/
theorem rebuildList_degenerate_rows (presences : Nat → Option Presence)
    (roles : Nat → Option Role) (st : MembersListState) :
    (rebuildList true true (.error ()) presences roles st).rows =
      ["Failed to load members"] ∧
    (rebuildList true true (.ok []) presences roles st).rows = [] := by
  constructor <;> rfl

theorem onReady_initialized_true (guilds : Nat → Option Guild) (gStyle : Nat → Style)
    (autoExpandFolders : Bool) (st : ReadyState) (folders : List GuildFolder) :
    (onReady guilds gStyle autoExpandFolders st folders).guildsTreeInitialized = true := by
  unfold onReady
  by_cases h : st.guildsTreeInitialized = true
  · simp [h]
  · simp [h]

/-- Claim C9: only the first Ready event builds the navigation tree — a
Ready event arriving at an already-initialized state returns it untouched,
and any sequence of further Ready events after the first leaves the state
(root children, Direct Messages node, guild and folder nodes) exactly as
the first one built it. -/
theorem onReady_only_first_builds (guilds : Nat → Option Guild) (gStyle : Nat → Style)
    (autoExpandFolders : Bool) :
    (∀ (st : ReadyState) (folders : List GuildFolder),
      st.guildsTreeInitialized = true →
      onReady guilds gStyle autoExpandFolders st folders = st) ∧
    (∀ (st : ReadyState) (first : List GuildFolder) (rest : List (List GuildFolder)),
      rest.foldl (onReady guilds gStyle autoExpandFolders)
        (onReady guilds gStyle autoExpandFolders st first) =
        onReady guilds gStyle autoExpandFolders st first) := by
  have hid : ∀ (st : ReadyState) (folders : List GuildFolder),
      st.guildsTreeInitialized = true →
      onReady guilds gStyle autoExpandFolders st folders = st := by
    intro st folders h
    unfold onReady
    simp [h]
  have hfold : ∀ (rest : List (List GuildFolder)) (s : ReadyState),
      s.guildsTreeInitialized = true →
      rest.foldl (onReady guilds gStyle autoExpandFolders) s = s := by
    intro rest
    induction rest with
    | nil => intro s _; rfl
    | cons f fs ih =>
      intro s hs
      rw [List.foldl_cons, hid s f hs]
      exact ih s hs
  exact ⟨hid, fun st first rest =>
    hfold rest _ (onReady_initialized_true guilds gStyle autoExpandFolders st first)⟩

def witnessReadyTree : TreeNode :=
  .mk .nilRef "" Style.zero true [.mk .nilRef "Direct Messages" Style.zero true []]

/-- Witness for C9: a second Ready event on an initialized state is a
no-op. -/
theorem onReady_only_first_builds_witness :
    onReady (fun _ => none) (fun _ => Style.zero) true ⟨true, witnessReadyTree⟩
      [⟨1, "f", "red", [2]⟩] = ⟨true, witnessReadyTree⟩ :=
  (onReady_only_first_builds (fun _ => none) (fun _ => Style.zero) true).1
    ⟨true, witnessReadyTree⟩ [⟨1, "f", "red", [2]⟩] rfl

theorem roleScan_foldl_inv (roles : Nat → Option Role) :
    ∀ (l : List Nat) (acc : Option Role × Int),
      0 ≤ acc.2 → (∀ r, acc.1 = some r → r.color ≠ 0 ∧ 0 < r.position) →
      0 ≤ (l.foldl (roleScanStep roles) acc).2 ∧
        ∀ r, (l.foldl (roleScanStep roles) acc).1 = some r → r.color ≠ 0 ∧ 0 < r.position
  | [], acc, h2, h1 => ⟨h2, h1⟩
  | rid :: l, acc, h2, h1 => by
    rw [List.foldl_cons]
    apply roleScan_foldl_inv roles l
    · rcases hr : roles rid with _ | role
      · simp only [roleScanStep, hr]
        exact h2
      · simp only [roleScanStep, hr]
        by_cases hcond : role.color ≠ 0 ∧ role.position > acc.2
        · rw [if_pos hcond]
          have := hcond.2
          omega
        · rw [if_neg hcond]
          exact h2
    · rcases hr : roles rid with _ | role
      · simp only [roleScanStep, hr]
        exact h1
      · simp only [roleScanStep, hr]
        by_cases hcond : role.color ≠ 0 ∧ role.position > acc.2
        · rw [if_pos hcond]
          intro r hrr
          have hrole : role = r := Option.some.inj hrr
          subst hrole
          have := hcond.2
          exact ⟨hcond.1, by omega⟩
        · rw [if_neg hcond]
          exact h1

theorem roleScan_foldl_none (roles : Nat → Option Role) :
    ∀ (l : List Nat),
      (∀ rid ∈ l, ∀ r, roles rid = some r → r.color = 0 ∨ r.position = 0) →
      l.foldl (roleScanStep roles) ((none : Option Role), (0 : Int)) = (none, 0)
  | [], _ => rfl
  | rid :: l, h => by
    have hstep : roleScanStep roles ((none : Option Role), (0 : Int)) rid = (none, 0) := by
      rcases hr : roles rid with _ | role
      · simp only [roleScanStep, hr]
      · simp only [roleScanStep, hr]
        have hro := h rid (List.mem_cons_self rid l) role hr
        have hcond : ¬ (role.color ≠ 0 ∧ role.position > (0 : Int)) := by
          rcases hro with h0 | h0
          · exact fun hc => hc.1 h0
          · intro hc
            rw [h0] at hc
            exact absurd hc.2 (lt_irrefl 0)
        rw [if_neg hcond]
    rw [List.foldl_cons, hstep]
    exact roleScan_foldl_none roles l (fun rid' hm => h rid' (List.mem_cons_of_mem rid hm))

/-- Claim C10: the highest-colored-role computation only ever returns a role
with non-zero color and strictly positive position; a member all of whose
resolvable roles are uncolored or sit at position 0 (including a member with
no roles) gets `none` and is grouped under the "No Role" sentinel bucket. -/
theorem getRoleInfo_strictly_positive_colored (roles : Nat → Option Role) (m : Member) :
    (∀ r, getRoleInfo roles m = some r → r.color ≠ 0 ∧ 0 < r.position) ∧
    ((∀ rid ∈ m.roleIDs, ∀ r, roles rid = some r → r.color = 0 ∨ r.position = 0) →
      getRoleInfo roles m = none ∧
      ∀ (p : Option Presence) (items : List MemberItem),
        (⟨m, p, getRoleInfo roles m⟩ : MemberItem) ∈ items →
        (⟨m, p, getRoleInfo roles m⟩ : MemberItem) ∈
          groupMembersByRole items "No Role") := by
  constructor
  · intro r hr
    unfold getRoleInfo at hr
    by_cases he : m.roleIDs.isEmpty
    · rw [if_pos he] at hr
      exact absurd hr (by simp)
    · rw [if_neg he] at hr
      exact (roleScan_foldl_inv roles m.roleIDs (none, 0) le_rfl
        (fun r h => by simp at h)).2 r hr
  · intro h
    have hnone : getRoleInfo roles m = none := by
      unfold getRoleInfo
      by_cases he : m.roleIDs.isEmpty
      · rw [if_pos he]
      · rw [if_neg he, roleScan_foldl_none roles m.roleIDs h]
    refine ⟨hnone, ?_⟩
    intro p items hmem
    apply List.mem_filter.mpr
    refine ⟨hmem, ?_⟩
    simp [groupMembersByRole, roleNameOf, hnone]

def roleOracleNoPos : Nat → Option Role := fun rid =>
  if rid = 1 then some ⟨1, "Mods", 5, 0⟩ else none

def memberColoredZeroPos : Member := ⟨⟨21, "u", "u"⟩, "", [1]⟩

/-- Witness for C10: a member whose only role is colored but sits at
position 0 resolves to no highest colored role and lands in "No Role". -/
theorem getRoleInfo_strictly_positive_colored_witness :
    getRoleInfo roleOracleNoPos memberColoredZeroPos = none ∧
    (⟨memberColoredZeroPos, none, getRoleInfo roleOracleNoPos memberColoredZeroPos⟩ :
        MemberItem) ∈
      groupMembersByRole
        [⟨memberColoredZeroPos, none, getRoleInfo roleOracleNoPos memberColoredZeroPos⟩]
        "No Role" := by
  have hh : ∀ rid ∈ memberColoredZeroPos.roleIDs, ∀ r,
      roleOracleNoPos rid = some r → r.color = 0 ∨ r.position = 0 := by
    intro rid hrid r hr
    have h1 : rid = 1 := by simpa [memberColoredZeroPos] using hrid
    subst h1
    simp only [roleOracleNoPos, if_pos] at hr
    right
    rw [← Option.some.inj hr]
  have h2 := (getRoleInfo_strictly_positive_colored roleOracleNoPos memberColoredZeroPos).2 hh
  exact ⟨h2.1, h2.2 none _ (List.mem_singleton.mpr rfl)⟩

theorem utf8Bytes_acc (l : List Char) (acc : List Nat) :
    l.foldr (fun c a => utf8EncodeCharNat c ++ a) acc =
      l.foldr (fun c a => utf8EncodeCharNat c ++ a) [] ++ acc := by
  induction l with
  | nil => simp
  | cons c cs ih => simp [ih, List.append_assoc]

theorem utf8Bytes_append (a b : String) :
    utf8Bytes (a ++ b) = utf8Bytes a ++ utf8Bytes b := by
  unfold utf8Bytes
  rw [String.data_append, List.foldr_append]
  exact utf8Bytes_acc a.data _

theorem utf8Bytes_push_ascii (s : String) (ch : Char) (hascii : ch.toNat < 128) :
    utf8Bytes (s.push ch) = utf8Bytes s ++ [ch.toNat] := by
  have henc : utf8EncodeCharNat ch = [ch.toNat] := by
    unfold utf8EncodeCharNat
    rw [if_pos hascii]
  unfold utf8Bytes
  rw [String.data_push, List.foldr_append]
  show List.foldr (fun c a => utf8EncodeCharNat c ++ a)
    (utf8EncodeCharNat ch ++ []) s.data = _
  rw [henc, utf8Bytes_acc s.data]
  simp

theorem searchKeyBytes_push_eq (gID p : String) (ch : Char) (hascii : ch.toNat < 128) :
    (utf8Bytes (gID ++ " " ++ p.push ch)).dropLast = utf8Bytes (gID ++ " " ++ p) := by
  rw [utf8Bytes_append (gID ++ " ") (p.push ch), utf8Bytes_push_ascii p ch hascii,
    ← List.append_assoc, List.dropLast_concat, ← utf8Bytes_append]

theorem Cache.get_create (c : Cache) (k : List Nat) (v : Nat) : (c.create k v).get k = v := by
  unfold Cache.create Cache.get
  rw [List.find?_cons_of_pos _ (by simp)]

/-- Claim C6 fails as stated: `key[:len(key)-1]` is a BYTE slice. For a
query whose final character is multibyte (here 'é', two UTF-8 bytes), the
truncated key ends mid-character and misses the cached one-character-shorter
prefix: "g ab" is cached at count 3, below the cap 10, yet searching the
query "abé" copies nothing and invokes the gateway search (fetch flag
true). -/
theorem searchMember_multibyte_fetch_counterexample :
    (⟨[(utf8Bytes "g ab", 3)]⟩ : Cache).existsKey (utf8Bytes "g ab") = true ∧
    (⟨[(utf8Bytes "g ab", 3)]⟩ : Cache).get (utf8Bytes "g ab") < 10 ∧
    (searchMember 10 5 100 42 ⟨⟨[(utf8Bytes "g ab", 3)]⟩, 0⟩ "g" ("ab".push 'é')).2 =
      true := by
  decide

/-- Claim C6 amended: when the one-character-shorter query's search has
completed — its key is cached with a count below the search cap — and the
query's final character is a single UTF-8 byte (ASCII), searching the longer
query copies that count into the cache under the longer key and invokes no
gateway search; for a final multibyte character the byte slice truncates
mid-character and the prefix cache is missed. -/
theorem searchMember_prefix_cache_no_fetch (searchLimit searchFrequency now chunkCount : Nat)
    (st : SearchState) (gID p : String) (ch : Char) (hascii : ch.toNat < 128)
    (h1 : st.cache.existsKey (utf8Bytes (gID ++ " " ++ p.push ch)) = false)
    (h2 : st.cache.existsKey (utf8Bytes (gID ++ " " ++ p)) = true)
    (h3 : st.cache.get (utf8Bytes (gID ++ " " ++ p)) < searchLimit) :
    searchMember searchLimit searchFrequency now chunkCount st gID (p.push ch) =
      (⟨st.cache.create (utf8Bytes (gID ++ " " ++ p.push ch))
          (st.cache.get (utf8Bytes (gID ++ " " ++ p))), st.lastSearch⟩, false) ∧
    (st.cache.create (utf8Bytes (gID ++ " " ++ p.push ch))
        (st.cache.get (utf8Bytes (gID ++ " " ++ p)))).get
        (utf8Bytes (gID ++ " " ++ p.push ch)) =
      st.cache.get (utf8Bytes (gID ++ " " ++ p)) := by
  constructor
  · unfold searchMember
    simp only [h1, Bool.false_eq_true, if_false]
    rw [searchKeyBytes_push_eq gID p ch hascii]
    rw [if_pos ⟨h2, h3⟩]
  · exact Cache.get_create st.cache (utf8Bytes (gID ++ " " ++ p.push ch))
      (st.cache.get (utf8Bytes (gID ++ " " ++ p)))

/-- Witness for the amended C6: with the bytes of "g ab" cached at count 3
below the cap 10, searching "abc" (ASCII final byte) copies the count under
the bytes of "g abc" and fetches nothing. -/
theorem searchMember_prefix_cache_no_fetch_witness :
    searchMember 10 5 100 42 ⟨⟨[(utf8Bytes "g ab", 3)]⟩, 0⟩ "g" ("ab".push 'c') =
      (⟨⟨[(utf8Bytes "g abc", 3), (utf8Bytes "g ab", 3)]⟩, 0⟩, false) := by
  have h := (searchMember_prefix_cache_no_fetch 10 5 100 42 ⟨⟨[(utf8Bytes "g ab", 3)]⟩, 0⟩
    "g" "ab" 'c' (by decide) (by decide) (by decide) (by decide)).1
  rw [h]
  decide

theorem sortMembers_nonpos_iff (a b : MemberItem) :
    sortMembers a b ≤ 0 ↔
      (statusOrder (memberStatus a) < statusOrder (memberStatus b) ∨
        (statusOrder (memberStatus a) = statusOrder (memberStatus b) ∧
          listCompare (goToLower (memberName a)).data (goToLower (memberName b)).data ≤ 0)) := by
  unfold sortMembers
  by_cases h : statusOrder (memberStatus a) ≠ statusOrder (memberStatus b)
  · rw [if_pos h]
    unfold cmpCompare
    by_cases hlt : statusOrder (memberStatus a) < statusOrder (memberStatus b)
    · rw [if_pos hlt]
      constructor
      · intro _
        exact Or.inl hlt
      · intro _
        omega
    · rw [if_neg hlt, if_neg h]
      constructor
      · intro h1
        omega
      · intro hr
        rcases hr with h0 | ⟨h0, _⟩
        · exact absurd h0 hlt
        · exact absurd h0 h
  · rw [if_neg h]
    push_neg at h
    unfold stringsCompare
    constructor
    · intro hle
      exact Or.inr ⟨h, hle⟩
    · intro hr
      rcases hr with h0 | ⟨_, hle⟩
      · omega
      · exact hle

theorem sortMembers_le_trans (a b c : MemberItem)
    (h1 : sortMembers a b ≤ 0) (h2 : sortMembers b c ≤ 0) : sortMembers a c ≤ 0 := by
  rw [sortMembers_nonpos_iff] at h1 h2 ⊢
  rcases h1 with h1 | ⟨h1, h1'⟩ <;> rcases h2 with h2 | ⟨h2, h2'⟩
  · exact Or.inl (lt_trans h1 h2)
  · exact Or.inl (h2 ▸ h1)
  · exact Or.inl (h1 ▸ h2)
  · exact Or.inr ⟨h1.trans h2, listCompare_trans _ _ _ h1' h2'⟩

theorem sortMembers_le_total (a b : MemberItem) :
    sortMembers a b ≤ 0 ∨ sortMembers b a ≤ 0 := by
  rcases Nat.lt_trichotomy (statusOrder (memberStatus a)) (statusOrder (memberStatus b))
    with h | h | h
  · exact Or.inl ((sortMembers_nonpos_iff a b).mpr (Or.inl h))
  · rcases listCompare_total (goToLower (memberName a)).data (goToLower (memberName b)).data
      with hc | hc
    · exact Or.inl ((sortMembers_nonpos_iff a b).mpr (Or.inr ⟨h, hc⟩))
    · exact Or.inr ((sortMembers_nonpos_iff b a).mpr (Or.inr ⟨h.symm, hc⟩))
  · exact Or.inr ((sortMembers_nonpos_iff b a).mpr (Or.inl h))

/-- The sort key described by the spec: status rank online=0, idle=1,
do-not-disturb=2, offline and invisible both 3, a missing presence treated
as offline. -/
def specStatusRank : Option Presence → Nat
  | none => 3
  | some pr =>
    if pr.status = "online" then 0
    else if pr.status = "idle" then 1
    else if pr.status = "dnd" then 2
    else 3

/-- The member order described by the spec: primary status rank, secondary
case-insensitive display name (nickname if set, else platform display
name). -/
def specMemberOrder (a b : MemberItem) : Prop :=
  specStatusRank a.presence < specStatusRank b.presence ∨
    (specStatusRank a.presence = specStatusRank b.presence ∧
      listCompare (goToLower (memberName a)).data (goToLower (memberName b)).data ≤ 0)

/-- Whether the item's presence status, if any, is one of the five statuses
the platform defines (the Go status map silently ranks unknown strings as
0; the claim speaks only of the five defined ones). -/
def knownStatus (it : MemberItem) : Bool :=
  match it.presence with
  | none => true
  | some p => ["online", "idle", "dnd", "offline", "invisible"].contains p.status

theorem statusOrder_eq_specRank (it : MemberItem) (h : knownStatus it = true) :
    statusOrder (memberStatus it) = specStatusRank it.presence := by
  unfold knownStatus at h
  unfold memberStatus
  rcases hp : it.presence with _ | p
  · rfl
  · rw [hp] at h
    have hmem : p.status = "online" ∨ p.status = "idle" ∨ p.status = "dnd" ∨
        p.status = "offline" ∨ p.status = "invisible" := by
      simpa using h
    rcases hmem with h0 | h0 | h0 | h0 | h0 <;> simp [statusOrder, specStatusRank, h0]

def exAlice : MemberItem := ⟨⟨⟨1, "Alice", "alice"⟩, "", []⟩, some ⟨1, "online"⟩, none⟩

def exBob : MemberItem := ⟨⟨⟨2, "bob", "bob"⟩, "", []⟩, some ⟨2, "offline"⟩, none⟩

def exCarl : MemberItem := ⟨⟨⟨3, "Carl", "carl"⟩, "", []⟩, some ⟨3, "idle"⟩, none⟩

/-- Claim C5: for members whose statuses are among the five the platform
defines, the build's sort step returns a permutation of its input ordered by
status rank first and case-insensitive display name second; the spec's
example {Alice:online, bob:offline, Carl:idle} sorts to [Alice, Carl, bob]
from every input order. -/
theorem sortMembers_status_then_name (items : List MemberItem)
    (h : ∀ it ∈ items, knownStatus it = true) :
    (sortMembersList items).Perm items ∧
    (sortMembersList items).Pairwise specMemberOrder ∧
    (∀ l ∈ ([[exAlice, exBob, exCarl], [exAlice, exCarl, exBob], [exBob, exAlice, exCarl],
        [exBob, exCarl, exAlice], [exCarl, exAlice, exBob], [exCarl, exBob, exAlice]] :
        List (List MemberItem)),
      sortMembersList l = [exAlice, exCarl, exBob]) := by
  have hperm : (sortMembersList items).Perm items := List.perm_insertionSort _ items
  refine ⟨hperm, ?_, by decide⟩
  haveI : IsTotal MemberItem (fun a b => sortMembers a b ≤ 0) := ⟨sortMembers_le_total⟩
  haveI : IsTrans MemberItem (fun a b => sortMembers a b ≤ 0) :=
    ⟨fun a b c => sortMembers_le_trans a b c⟩
  have hs := List.sorted_insertionSort (fun a b => sortMembers a b ≤ 0) items
  refine List.Pairwise.imp_of_mem ?_ hs
  intro a b ha hb hab
  have hka := h a (hperm.mem_iff.mp ha)
  have hkb := h b (hperm.mem_iff.mp hb)
  have hx := (sortMembers_nonpos_iff a b).mp hab
  unfold specMemberOrder
  rw [← statusOrder_eq_specRank a hka, ← statusOrder_eq_specRank b hkb]
  exact hx

/-- Witness for C5 at the spec's example members. -/
theorem sortMembers_status_then_name_witness :
    (∀ it ∈ [exBob, exAlice, exCarl], knownStatus it = true) ∧
    (sortMembersList [exBob, exAlice, exCarl]).Perm [exBob, exAlice, exCarl] ∧
    (sortMembersList [exBob, exAlice, exCarl]).Pairwise specMemberOrder := by
  have h := sortMembers_status_then_name [exBob, exAlice, exCarl] (by decide)
  exact ⟨by decide, h.1, h.2.1⟩

/-- Claim C8: on first expand (no existing children), the DM-group's fetched
channels are sorted descending by the recency surrogate (latest message id,
else own id); phase 1 materializes one default-styled child per sorted
channel and expands the node; phase 2 applies the per-channel computed
styles to those same nodes, in order, leaving references and order as phase
1 built them. -/
theorem dmExpand_sorted_two_phase (cStyle : Nat → Style) (node : TreeNode)
    (channels : List Channel) (hempty : node.children = []) :
    (sortPrivateChannels channels).Perm channels ∧
    (sortPrivateChannels channels).Pairwise (fun a b => msgID b ≤ msgID a) ∧
    (onSelectedDMPhase1 node channels).children =
      (sortPrivateChannels channels).map mkDMChannelNode ∧
    (∀ n ∈ (onSelectedDMPhase1 node channels).children, n.style = Style.zero) ∧
    (onSelectedDMPhase1 node channels).expanded = true ∧
    (onSelectedDMPhase2 cStyle node channels).children =
      List.zipWith (fun n c => n.withStyle (cStyle c.id))
        (onSelectedDMPhase1 node channels).children (sortPrivateChannels channels) ∧
    (onSelectedDMPhase2 cStyle node channels).children.map TreeNode.ref =
      (sortPrivateChannels channels).map (fun c => NodeRef.channel c.id) := by
  have hperm := List.perm_insertionSort (fun a b : Channel => msgID b ≤ msgID a) channels
  haveI : IsTotal Channel (fun a b => msgID b ≤ msgID a) :=
    ⟨fun a b => Nat.le_total (msgID b) (msgID a)⟩
  haveI : IsTrans Channel (fun a b => msgID b ≤ msgID a) :=
    ⟨fun a b c h1 h2 => Nat.le_trans h2 h1⟩
  have hsort := List.sorted_insertionSort (fun a b : Channel => msgID b ≤ msgID a) channels
  have hch1 : (onSelectedDMPhase1 node channels).children =
      (sortPrivateChannels channels).map mkDMChannelNode := by
    show node.children ++ (sortPrivateChannels channels).map mkDMChannelNode = _
    rw [hempty, List.nil_append]
  refine ⟨hperm, hsort, hch1, ?_, rfl, ?_, ?_⟩
  · rw [hch1]
    intro n hn
    rcases List.mem_map.mp hn with ⟨c, _, rfl⟩
    rfl
  · rw [hch1]
    show node.children ++ (sortPrivateChannels channels).map
        (fun c => (mkDMChannelNode c).withStyle (cStyle c.id)) = _
    rw [hempty, List.nil_append, List.zipWith_map_left, List.zipWith_same]
  · show (node.children ++ (sortPrivateChannels channels).map
        (fun c => (mkDMChannelNode c).withStyle (cStyle c.id))).map TreeNode.ref = _
    rw [hempty, List.nil_append, List.map_map]
    rfl

def dmGroupEmpty : TreeNode := .mk .nilRef "Direct Messages" Style.zero true []

def chanRecent : Channel := ⟨11, .directMessage, "d1", some 100, none⟩

def chanNoMsg : Channel := ⟨12, .directMessage, "d2", none, none⟩

def chanOld : Channel := ⟨13, .groupDM, "d3", some 50, none⟩

/-- Witness for C8 at three concrete private channels, one without
messages. -/
theorem dmExpand_sorted_two_phase_witness :
    (sortPrivateChannels [chanNoMsg, chanOld, chanRecent]).Perm
      [chanNoMsg, chanOld, chanRecent] ∧
    (onSelectedDMPhase1 dmGroupEmpty [chanNoMsg, chanOld, chanRecent]).expanded = true ∧
    (onSelectedDMPhase2 (fun _ => unreadStyle .channelRead) dmGroupEmpty
        [chanNoMsg, chanOld, chanRecent]).children.map TreeNode.ref =
      (sortPrivateChannels [chanNoMsg, chanOld, chanRecent]).map
        (fun c => NodeRef.channel c.id) := by
  have h := dmExpand_sorted_two_phase (fun _ => unreadStyle .channelRead) dmGroupEmpty
    [chanNoMsg, chanOld, chanRecent] rfl
  exact ⟨h.1, h.2.2.2.2.1, h.2.2.2.2.2.2⟩

def glyphMember : Member := ⟨⟨7, "", "x"⟩, "x─x", []⟩

def glyphPresences : Nat → Option Presence := fun _ => some ⟨7, "online"⟩

def glyphListState : MembersListState :=
  rebuildList true true (.ok [glyphMember]) glyphPresences (fun _ => none) ⟨[], []⟩

/-- Claim C4 fails on the code: `onSelected` classifies header rows by
scanning the rendered text for the glyph '─', not by a kind tag — a member
whose nickname contains the glyph is recorded at row 1 by the build, yet
selecting row 1 is skipped as a header and no DM is initiated. -/
theorem memberRow_glyph_skipped_counterexample :
    glyphListState.memberItems = [(7, 1)] ∧
    membersOnSelected glyphListState 1 = none := by
  decide

/-- Claim C4 amended: member rows are distinguished from role headers by
scanning the rendered row text for the decorative glyph '─': selecting any
row whose text contains the glyph initiates no DM, and selecting a
glyph-free row initiates a DM with the user id the index map records for
that row (when that id is valid). -/
theorem membersOnSelected_glyph_scan (st : MembersListState) (i : Nat) (row : String)
    (hrow : st.rows.get? i = some row) :
    (row.data.contains '─' = true → membersOnSelected st (i : Int) = none) ∧
    (∀ uid j, row.data.contains '─' = false →
      st.memberItems.find? (fun q => q.2 = i) = some (uid, j) → 0 < uid →
      membersOnSelected st (i : Int) = some uid) := by
  have hlen : i < st.rows.length := by
    by_contra hge
    rw [List.get?_eq_none.mpr (le_of_not_lt hge)] at hrow
    exact absurd hrow (by simp)
  have hcond : ¬ (((i : Nat) : Int) < 0 ∨ (st.rows.length : Int) ≤ ((i : Nat) : Int)) := by
    push_neg
    constructor
    · exact_mod_cast Nat.zero_le i
    · exact_mod_cast hlen
  have htn : ((i : Nat) : Int).toNat = i := Int.toNat_natCast i
  constructor
  · intro hc
    unfold membersOnSelected
    rw [if_neg hcond, htn, hrow]
    simp only [hc, if_true]
  · intro uid j hc hfind hu
    unfold membersOnSelected
    rw [if_neg hcond, htn, hrow]
    simp only [hc, Bool.false_eq_true, if_false]
    rw [hfind]
    simp only [if_pos hu]

def plainMember : Member := ⟨⟨9, "", "Zed"⟩, "", []⟩

def plainListState : MembersListState :=
  rebuildList true true (.ok [plainMember]) (fun _ => some ⟨9, "online"⟩)
    (fun _ => none) ⟨[], []⟩

/-- Witness for the amended C4: in a built list with one glyph-free member
row, selecting the header row is skipped and selecting the member row
initiates a DM with the recorded user. -/
theorem membersOnSelected_glyph_scan_witness :
    membersOnSelected plainListState (((0 : Nat)) : Int) = none ∧
    membersOnSelected plainListState (((1 : Nat)) : Int) = some 9 := by
  constructor
  · exact (membersOnSelected_glyph_scan plainListState 0 "─ No Role ─" (by decide)).1 (by decide)
  · exact (membersOnSelected_glyph_scan plainListState 1 "[green::b]•[-:-:-] Zed"
      (by decide)).2 9 1 (by decide) (by decide) (by decide)

mutual

/-- The frame property for style updates: the second tree has exactly the
shape of the first (same references, texts, expanded flags and child
structure), and a node's style may differ only when its reference satisfies
`S`. -/
def StyleFrame (S : NodeRef → Prop) : TreeNode → TreeNode → Prop
  | .mk r tx st e cs, .mk r' tx' st' e' cs' =>
    r' = r ∧ tx' = tx ∧ e' = e ∧ (¬ S r → st' = st) ∧ StyleFrameList S cs cs'

def StyleFrameList (S : NodeRef → Prop) : List TreeNode → List TreeNode → Prop
  | [], [] => True
  | c :: cs, c' :: cs' => StyleFrame S c c' ∧ StyleFrameList S cs cs'
  | _, _ => False

end

mutual

theorem styleFrame_refl (S : NodeRef → Prop) : ∀ t : TreeNode, StyleFrame S t t
  | .mk _ _ _ _ cs => ⟨rfl, rfl, rfl, fun _ => rfl, styleFrameList_refl S cs⟩

theorem styleFrameList_refl (S : NodeRef → Prop) : ∀ cs : List TreeNode, StyleFrameList S cs cs
  | [] => True.intro
  | c :: cs => ⟨styleFrame_refl S c, styleFrameList_refl S cs⟩

end

mutual

theorem styleFrame_trans (S : NodeRef → Prop) :
    ∀ a b c : TreeNode, StyleFrame S a b → StyleFrame S b c → StyleFrame S a c
  | .mk r1 t1 s1 e1 c1, .mk r2 t2 s2 e2 c2, .mk r3 t3 s3 e3 c3, h1, h2 => by
    obtain ⟨hr1, ht1, he1, hs1, hc1⟩ := h1
    obtain ⟨hr2, ht2, he2, hs2, hc2⟩ := h2
    refine ⟨hr2.trans hr1, ht2.trans ht1, he2.trans he1, ?_,
      styleFrameList_trans S c1 c2 c3 hc1 hc2⟩
    intro hn
    exact (hs2 (hr1.symm ▸ hn)).trans (hs1 hn)

theorem styleFrameList_trans (S : NodeRef → Prop) :
    ∀ as bs cs : List TreeNode,
      StyleFrameList S as bs → StyleFrameList S bs cs → StyleFrameList S as cs
  | [], [], [], _, _ => True.intro
  | [], [], _ :: _, _, h2 => h2.elim
  | [], _ :: _, _, h1, _ => h1.elim
  | _ :: _, [], _, h1, _ => h1.elim
  | _ :: _, _ :: _, [], _, h2 => h2.elim
  | a :: as, b :: bs, c :: cs, h1, h2 =>
    ⟨styleFrame_trans S a b c h1.1 h2.1, styleFrameList_trans S as bs cs h1.2 h2.2⟩

end

theorem styleFrame_withStyle (S : NodeRef → Prop) (t : TreeNode) (st : Style)
    (hS : S t.ref) : StyleFrame S t (t.withStyle st) := by
  cases t with
  | mk r tx s0 e cs =>
    exact ⟨rfl, rfl, rfl, fun hn => absurd hS hn, styleFrameList_refl S cs⟩

mutual

theorem styleFrame_updateFirstRef (S : NodeRef → Prop) (target : NodeRef)
    (f : TreeNode → TreeNode) (hf : ∀ u, u.ref = target → StyleFrame S u (f u)) :
    ∀ t : TreeNode, StyleFrame S t (updateFirstRef target f t).1
  | .mk r tx s0 e cs => by
    by_cases hr : r = target
    · simp only [updateFirstRef, if_pos hr]
      exact hf (.mk r tx s0 e cs) hr
    · simp only [updateFirstRef, if_neg hr]
      exact ⟨rfl, rfl, rfl, fun _ => rfl, styleFrameList_updateFirstRef S target f hf cs⟩

theorem styleFrameList_updateFirstRef (S : NodeRef → Prop) (target : NodeRef)
    (f : TreeNode → TreeNode) (hf : ∀ u, u.ref = target → StyleFrame S u (f u)) :
    ∀ cs : List TreeNode, StyleFrameList S cs (updateFirstRefList target f cs).1
  | [] => True.intro
  | c :: cs => by
    show StyleFrameList S (c :: cs)
      ((if (updateFirstRef target f c).2 = true
        then ((updateFirstRef target f c).1 :: cs, true)
        else (c :: (updateFirstRefList target f cs).1,
          (updateFirstRefList target f cs).2)).1)
    by_cases hp : (updateFirstRef target f c).2 = true
    · rw [if_pos hp]
      exact ⟨styleFrame_updateFirstRef S target f hf c, styleFrameList_refl S cs⟩
    · rw [if_neg hp]
      exact ⟨styleFrame_refl S c, styleFrameList_updateFirstRef S target f hf cs⟩

end

/-- The references a ReadStateUpdate event may restyle: the node carrying
the event's channel id and, when the event carries a guild id, the node
carrying that guild id. -/
def readUpdateTargets (guildID : Option Nat) (channelID : Nat) (r : NodeRef) : Prop :=
  r = .channel channelID ∨ ∃ g, guildID = some g ∧ r = .guild g

/-- Claim C3 amended: a ReadStateUpdate performs no rebuild — the handler
preserves the whole tree shape (references, texts, expanded flags, child
structure) and recomputes styles only: no node's style changes except,
possibly, the node carrying the event's channel id and (when the event
carries a guild id) the node carrying that guild id. -/
theorem readUpdate_incremental_frame (gStyle cStyle : Nat → Style) (root : TreeNode)
    (guildID : Option Nat) (channelID : Nat) :
    StyleFrame (readUpdateTargets guildID channelID) root
      (onReadUpdate gStyle cStyle root guildID channelID) := by
  cases guildID with
  | none =>
    unfold onReadUpdate setStyleRef
    apply styleFrame_updateFirstRef
    intro u hu
    exact styleFrame_withStyle _ u _ (Or.inl hu)
  | some g =>
    unfold onReadUpdate
    apply styleFrame_updateFirstRef
    intro u hu
    show StyleFrame _ u
      (if (u.withStyle (gStyle g)).expanded = true
        then setStyleRef (.channel channelID) (cStyle channelID) (u.withStyle (gStyle g))
        else u.withStyle (gStyle g))
    have h1 : StyleFrame (readUpdateTargets (some g) channelID) u (u.withStyle (gStyle g)) :=
      styleFrame_withStyle _ u _ (Or.inr ⟨g, rfl, hu⟩)
    by_cases he : (u.withStyle (gStyle g)).expanded = true
    · rw [if_pos he]
      refine styleFrame_trans _ _ _ _ h1 ?_
      unfold setStyleRef
      apply styleFrame_updateFirstRef
      intro v hv
      exact styleFrame_withStyle _ v _ (Or.inl hv)
    · rw [if_neg he]
      exact h1

def readChanNode : TreeNode := .mk (.channel 9) "c" (unreadStyle .channelRead) true []

def readGuildNode : TreeNode := .mk (.guild 5) "G" (unreadStyle .channelRead) true [readChanNode]

def readRoot : TreeNode := .mk .nilRef "" Style.zero true [readGuildNode]

/-- Claim C3 fails as stated: a ReadStateUpdate for an open guild channel
also recomputes and reapplies the parent guild node's style — here the guild
node flips from the read style to the unread style while the channel node's
recomputed style is unchanged, so a node other than the channel's changed. -/
theorem readUpdate_restyles_guild_node_counterexample :
    onReadUpdate (fun _ => unreadStyle .channelUnread) (fun _ => unreadStyle .channelRead)
      readRoot (some 5) 9 =
      .mk .nilRef "" Style.zero true
        [.mk (.guild 5) "G" (unreadStyle .channelUnread) true [readChanNode]] ∧
    unreadStyle .channelUnread ≠ unreadStyle .channelRead := by
  decide

theorem ref_ne_of_not_contains (target : NodeRef) (n : TreeNode)
    (h : containsRef target n = false) : n.ref ≠ target := by
  cases n with
  | mk r tx s e cs =>
    unfold containsRef at h
    simp only [Bool.or_eq_false_iff, decide_eq_false_iff_not] at h
    exact h.1

mutual

theorem findRef_eq_none_of_not_contains (target : NodeRef) :
    ∀ t : TreeNode, containsRef target t = false → findRef target t = none
  | .mk r tx s e cs, h => by
    unfold containsRef at h
    simp only [Bool.or_eq_false_iff, decide_eq_false_iff_not] at h
    unfold findRef
    rw [if_neg h.1]
    exact findRefList_eq_none_of_not_contains target cs h.2

theorem findRefList_eq_none_of_not_contains (target : NodeRef) :
    ∀ cs : List TreeNode, containsRefList target cs = false → findRefList target cs = none
  | [], _ => rfl
  | c :: cs, h => by
    unfold containsRefList at h
    simp only [Bool.or_eq_false_iff] at h
    unfold findRefList
    rw [findRef_eq_none_of_not_contains target c h.1]
    exact findRefList_eq_none_of_not_contains target cs h.2

end

mutual

theorem updateFirstRef_of_not_contains (target : NodeRef) (f : TreeNode → TreeNode) :
    ∀ t : TreeNode, containsRef target t = false → updateFirstRef target f t = (t, false)
  | .mk r tx s e cs, h => by
    unfold containsRef at h
    simp only [Bool.or_eq_false_iff, decide_eq_false_iff_not] at h
    unfold updateFirstRef
    rw [if_neg h.1, updateFirstRefList_of_not_contains target f cs h.2]

theorem updateFirstRefList_of_not_contains (target : NodeRef) (f : TreeNode → TreeNode) :
    ∀ cs : List TreeNode, containsRefList target cs = false →
      updateFirstRefList target f cs = (cs, false)
  | [], _ => rfl
  | c :: cs, h => by
    unfold containsRefList at h
    simp only [Bool.or_eq_false_iff] at h
    unfold updateFirstRefList
    rw [updateFirstRef_of_not_contains target f c h.1,
      updateFirstRefList_of_not_contains target f cs h.2]
    rfl

end

theorem findRefList_append_skip (target : NodeRef) (l1 l2 : List TreeNode)
    (h : ∀ n ∈ l1, containsRef target n = false) :
    findRefList target (l1 ++ l2) = findRefList target l2 := by
  induction l1 with
  | nil => rfl
  | cons c cs ih =>
    rw [List.cons_append]
    show (match findRef target c with
      | some n => some n
      | none => findRefList target (cs ++ l2)) = findRefList target l2
    rw [findRef_eq_none_of_not_contains target c (h c (List.mem_cons_self c cs))]
    exact ih (fun n hn => h n (List.mem_cons_of_mem c hn))

theorem updateFirstRefList_append_skip (target : NodeRef) (f : TreeNode → TreeNode)
    (l1 l2 : List TreeNode) (h : ∀ n ∈ l1, containsRef target n = false) :
    updateFirstRefList target f (l1 ++ l2) =
      (l1 ++ (updateFirstRefList target f l2).1, (updateFirstRefList target f l2).2) := by
  induction l1 with
  | nil => rfl
  | cons c cs ih =>
    rw [List.cons_append]
    show (let p := updateFirstRef target f c;
      if p.2 = true then (p.1 :: (cs ++ l2), true)
      else
        let q := updateFirstRefList target f (cs ++ l2);
        (c :: q.1, q.2)) =
      (c :: cs ++ (updateFirstRefList target f l2).1, (updateFirstRefList target f l2).2)
    rw [updateFirstRef_of_not_contains target f c (h c (List.mem_cons_self c cs)),
      ih (fun n hn => h n (List.mem_cons_of_mem c hn))]
    rfl

theorem find?_skip {α : Type} (p : α → Bool) (l1 l2 : List α)
    (h : ∀ n ∈ l1, p n = false) :
    List.find? p (l1 ++ l2) = List.find? p l2 := by
  rw [List.find?_append, List.find?_eq_none.mpr (fun x hx => by rw [h x hx]; simp),
    Option.none_or]

theorem promoteInDMParent_append (dm : TreeNode) (l1 : List TreeNode) (p : TreeNode)
    (l2 : List TreeNode) (h : ∀ n ∈ l1, n.text ≠ "Direct Messages")
    (hp : p.text = "Direct Messages") :
    promoteInDMParent dm (l1 ++ p :: l2) =
      l1 ++ p.withChildren (moveDMToTopChildren p.children dm) :: l2 := by
  induction l1 with
  | nil =>
    rw [List.nil_append]
    unfold promoteInDMParent
    rw [if_pos hp]
    rfl
  | cons c cs ih =>
    rw [List.cons_append]
    unfold promoteInDMParent
    rw [if_neg (h c (List.mem_cons_self c cs)),
      ih (fun n hn => h n (List.mem_cons_of_mem c hn))]
    rfl

/-- Claim C1: a MessageCreate event for a cached DM or group-DM channel that
is not the selected channel forces the channel node's style to the unread
style (bypassing the read-state style oracle) and makes the node the first
child of the Direct Messages group, the remaining children keeping their
original relative order — regardless of the node's prior index. The
hypotheses say the node sits under the Direct Messages group and that no
other node of the tree carries its channel reference (channel ids are
unique in every tree the program builds). -/
theorem messageCreate_closedDM_forces_unread_and_promotes
    (cabinet : Nat → Option Channel) (cStyle : Nat → Style) (selected : Option Nat)
    (msgGuildID : Option Nat) (cid : Nat) (ch : Channel)
    (rr : NodeRef) (rt : String) (rs : Style) (re : Bool)
    (pre post dpre dpost : List TreeNode) (ds : Style) (de : Bool)
    (ntext : String) (nstyle : Style) (nexp : Bool) (nch : List TreeNode)
    (hcab : cabinet cid = some ch)
    (htype : ch.channelType = .directMessage ∨ ch.channelType = .groupDM)
    (hsel : ¬ selected = some cid)
    (hrr : rr ≠ .channel cid)
    (hpre : ∀ n ∈ pre, containsRef (.channel cid) n = false)
    (hpretext : ∀ n ∈ pre, n.text ≠ "Direct Messages")
    (hdpre : ∀ n ∈ dpre, containsRef (.channel cid) n = false)
    (hdpost : ∀ n ∈ dpost, containsRef (.channel cid) n = false) :
    onMessageCreate cabinet cStyle selected
      (.mk rr rt rs re
        (pre ++ (.mk .nilRef "Direct Messages" ds de
          (dpre ++ (.mk (.channel cid) ntext nstyle nexp nch) :: dpost)) :: post))
      cid msgGuildID =
    .mk rr rt rs re
      (pre ++ (.mk .nilRef "Direct Messages" ds de
        ((.mk (.channel cid) ntext (unreadStyle .channelUnread) nexp nch) ::
          (dpre ++ dpost))) :: post) := by
  set target : NodeRef := .channel cid with htarget
  set sty : Style := unreadStyle .channelUnread with hsty
  set dmNode : TreeNode := .mk (.channel cid) ntext nstyle nexp nch with hdmNode
  set dmNode2 : TreeNode := .mk (.channel cid) ntext sty nexp nch with hdmNode2
  set dmParent : TreeNode :=
    .mk .nilRef "Direct Messages" ds de (dpre ++ dmNode :: dpost) with hdmParent
  set dmParent2 : TreeNode :=
    .mk .nilRef "Direct Messages" ds de (dpre ++ dmNode2 :: dpost) with hdmParent2
  set root : TreeNode := .mk rr rt rs re (pre ++ dmParent :: post) with hroot
  set root2 : TreeNode := .mk rr rt rs re (pre ++ dmParent2 :: post) with hroot2
  set final : TreeNode :=
    .mk rr rt rs re
      (pre ++ (.mk .nilRef "Direct Messages" ds de (dmNode2 :: (dpre ++ dpost))) :: post)
    with hfinal
  -- stage 1: the tree-wide reference search finds the DM node
  have hfindNode : findRef target dmNode = some dmNode := by
    rw [hdmNode]
    show (if NodeRef.channel cid = target then some (TreeNode.mk (.channel cid) ntext nstyle nexp nch)
      else findRefList target nch) = some (TreeNode.mk (.channel cid) ntext nstyle nexp nch)
    rw [if_pos htarget.symm]
  have hfindParent : findRef target dmParent = some dmNode := by
    rw [hdmParent]
    show (if NodeRef.nilRef = target then some dmParent
      else findRefList target (dpre ++ dmNode :: dpost)) = some dmNode
    rw [if_neg (by rw [htarget]; simp), findRefList_append_skip target dpre _ hdpre]
    show (match findRef target dmNode with
      | some n => some n
      | none => findRefList target dpost) = some dmNode
    rw [hfindNode]
  have hfind : findRef target root = some dmNode := by
    rw [hroot]
    show (if rr = target then some root else findRefList target (pre ++ dmParent :: post)) =
      some dmNode
    rw [if_neg (htarget ▸ hrr), findRefList_append_skip target pre _ hpre]
    show (match findRef target dmParent with
      | some n => some n
      | none => findRefList target post) = some dmNode
    rw [hfindParent]
  -- stage 2: restyling the first reference match rewrites exactly the DM node
  have hupdNode : updateFirstRef target (TreeNode.withStyle sty) dmNode = (dmNode2, true) := by
    rw [hdmNode]
    show (if NodeRef.channel cid = target
      then (TreeNode.withStyle sty (.mk (.channel cid) ntext nstyle nexp nch), true)
      else _) = (dmNode2, true)
    rw [if_pos htarget.symm]
    rfl
  have hupdInner : updateFirstRefList target (TreeNode.withStyle sty) (dmNode :: dpost) =
      (dmNode2 :: dpost, true) := by
    show (let p := updateFirstRef target (TreeNode.withStyle sty) dmNode;
      if p.2 = true then (p.1 :: dpost, true)
      else
        let q := updateFirstRefList target (TreeNode.withStyle sty) dpost;
        (dmNode :: q.1, q.2)) = (dmNode2 :: dpost, true)
    rw [hupdNode]
    rfl
  have hupdL2 : updateFirstRefList target (TreeNode.withStyle sty) (dpre ++ dmNode :: dpost) =
      (dpre ++ dmNode2 :: dpost, true) := by
    rw [updateFirstRefList_append_skip target _ dpre _ hdpre, hupdInner]
  have hupdParent : updateFirstRef target (TreeNode.withStyle sty) dmParent =
      (dmParent2, true) := by
    rw [hdmParent]
    show (if NodeRef.nilRef = target
      then (TreeNode.withStyle sty
        (.mk .nilRef "Direct Messages" ds de (dpre ++ dmNode :: dpost)), true)
      else
        let p := updateFirstRefList target (TreeNode.withStyle sty) (dpre ++ dmNode :: dpost);
        (TreeNode.mk .nilRef "Direct Messages" ds de p.1, p.2)) = (dmParent2, true)
    rw [if_neg (by rw [htarget]; simp), hupdL2]
  have hupdOuter : updateFirstRefList target (TreeNode.withStyle sty) (dmParent :: post) =
      (dmParent2 :: post, true) := by
    show (let p := updateFirstRef target (TreeNode.withStyle sty) dmParent;
      if p.2 = true then (p.1 :: post, true)
      else
        let q := updateFirstRefList target (TreeNode.withStyle sty) post;
        (dmParent :: q.1, q.2)) = (dmParent2 :: post, true)
    rw [hupdParent]
    rfl
  have hupdRoot : updateFirstRef target (TreeNode.withStyle sty) root = (root2, true) := by
    rw [hroot]
    show (if rr = target
      then (TreeNode.withStyle sty (.mk rr rt rs re (pre ++ dmParent :: post)), true)
      else
        let p := updateFirstRefList target (TreeNode.withStyle sty) (pre ++ dmParent :: post);
        (TreeNode.mk rr rt rs re p.1, p.2)) = (root2, true)
    rw [if_neg (htarget ▸ hrr), updateFirstRefList_append_skip target _ pre _ hpre, hupdOuter]
  have hsetStyle : setStyleRef target sty root = root2 := by
    unfold setStyleRef
    rw [hupdRoot]
  -- stage 3: the promotion inside the Direct Messages group
  have hnotpre : dmNode2 ∉ dpre := fun hm =>
    (ref_ne_of_not_contains target dmNode2 (hdpre dmNode2 hm)) (hdmNode2 ▸ htarget ▸ rfl)
  have hnotpost : dmNode2 ∉ dpost := fun hm =>
    (ref_ne_of_not_contains target dmNode2 (hdpost dmNode2 hm)) (hdmNode2 ▸ htarget ▸ rfl)
  have hcount : (dpre ++ dmNode2 :: dpost).count dmNode2 = 1 := by
    rw [List.count_append, List.count_cons_self, List.count_eq_zero.mpr hnotpre,
      List.count_eq_zero.mpr hnotpost]
  have hmm : moveDMToTopChildren (dpre ++ dmNode2 :: dpost) dmNode2 =
      dmNode2 :: (dpre ++ dpost) := by
    rw [moveDMToTopChildren_eq_cons_erase _ _
      (List.mem_append_right _ (List.mem_cons_self _ _)) hcount,
      List.erase_append_right _ hnotpre, List.erase_cons_head]
  have hfindDM : List.find? (fun c => c.text = "Direct Messages") (pre ++ dmParent2 :: post) =
      some dmParent2 := by
    rw [find?_skip _ pre _ (fun n hn => by simp [hpretext n hn]),
      List.find?_cons_of_pos _ (by rw [hdmParent2]; rfl)]
  have hmove : moveDMToTop root2 dmNode2 = final := by
    unfold moveDMToTop
    rw [hroot2]
    show (match List.find? (fun c => c.text = "Direct Messages") (pre ++ dmParent2 :: post) with
      | none => TreeNode.mk rr rt rs re (pre ++ dmParent2 :: post)
      | some _ => TreeNode.withChildren
          (promoteInDMParent dmNode2 (pre ++ dmParent2 :: post))
          (TreeNode.mk rr rt rs re (pre ++ dmParent2 :: post))) = final
    rw [hfindDM, promoteInDMParent_append dmNode2 pre dmParent2 post hpretext
      (by rw [hdmParent2]; rfl)]
    rw [hfinal, hdmParent2]
    show TreeNode.mk rr rt rs re
        (pre ++ (TreeNode.mk .nilRef "Direct Messages" ds de
          (moveDMToTopChildren (dpre ++ dmNode2 :: dpost) dmNode2)) :: post) = _
    rw [hmm]
  -- stage 4: the update handler composes the stages
  have hudm : updateDMStyleAndMove cStyle root cid true = final := by
    unfold updateDMStyleAndMove
    rw [htarget] at hfind
    rw [hfind]
    show moveDMToTop (setStyleRef (.channel cid)
        (if true = true then unreadStyle .channelUnread else cStyle cid) root)
      (dmNode.withStyle (if true = true then unreadStyle .channelUnread else cStyle cid)) = final
    rw [if_pos rfl]
    rw [← htarget, ← hsty, hsetStyle]
    have : dmNode.withStyle sty = dmNode2 := by rw [hdmNode, hdmNode2]; rfl
    rw [this]
    exact hmove
  -- stage 5: the MessageCreate handler takes the closed-DM branch
  unfold onMessageCreate
  simp only [hcab]
  have hbool : (decide (ch.channelType = ChannelType.directMessage) ||
      decide (ch.channelType = ChannelType.groupDM)) = true := by
    rcases htype with h | h <;> simp [h]
  rw [hbool]
  show (if (true : Bool) = true
    then if ¬ selected = some cid
      then updateDMStyleAndMove cStyle root cid true
      else moveDMToTopOnMessage root cid
    else updateChannelStyle cStyle root cid msgGuildID) = final
  rw [if_pos rfl, if_pos hsel]
  exact hudm

def witnessGuildNode : TreeNode := .mk (.guild 50) "G" Style.zero true []

/-- Witness for C1: a concrete tree where the DM node sits at index 2 of the
Direct Messages group; the message forces the unread style and moves it to
index 0 with the other children in their original order. -/
theorem messageCreate_closedDM_forces_unread_and_promotes_witness :
    onMessageCreate (fun i => some ⟨i, .directMessage, "dm", none, none⟩)
      (fun _ => Style.zero) none
      (.mk .nilRef "" Style.zero true
        [witnessGuildNode,
         .mk .nilRef "Direct Messages" Style.zero true
           [exampleNodeA, exampleNodeB, .mk (.channel 3) "C" Style.zero true [],
            exampleNodeD]])
      3 none =
    .mk .nilRef "" Style.zero true
      [witnessGuildNode,
       .mk .nilRef "Direct Messages" Style.zero true
         [.mk (.channel 3) "C" (unreadStyle .channelUnread) true [],
          exampleNodeA, exampleNodeB, exampleNodeD]] := by
  have h := messageCreate_closedDM_forces_unread_and_promotes
    (fun i => some ⟨i, .directMessage, "dm", none, none⟩) (fun _ => Style.zero) none none 3
    ⟨3, .directMessage, "dm", none, none⟩ .nilRef "" Style.zero true
    [witnessGuildNode] [] [exampleNodeA, exampleNodeB] [exampleNodeD]
    Style.zero true "C" Style.zero true []
    rfl (Or.inl rfl) (by decide) (by decide) (by decide) (by decide) (by decide) (by decide)
  exact h
